import Mathlib

/-!
Shallow embedding of the kata-containers agent watcher
(`src/agent/src/watcher.rs`): the watch/mirror/fallback engine that polls
source mounts, mirrors changed files into target mounts, and falls back to a
bind mount when a mount grows too large or holds too many files.

Paths are modelled as lists of components (`FPath`), the filesystem as a tree
(`FsTree`), the `HashMap<PathBuf, SystemTime>` of watched files as an
association list (`WFiles`), and filesystem side effects as explicit action
lists (`FsAct`, `DisposeAct`).  Fallible operations return `Except`.
-/

set_option maxHeartbeats 1000000

namespace Watcher

/-- `MAX_ENTRIES_PER_STORAGE` from watcher.rs: the maximum number of file
system entries the agent will watch for each mount. -/
def MAX_ENTRIES_PER_STORAGE : Nat := 16

/-- `MAX_SIZE_PER_WATCHABLE_MOUNT` from watcher.rs: the maximum size of a
watchable mount in bytes (1 MiB). -/
def MAX_SIZE_PER_WATCHABLE_MOUNT : Nat := 1024 * 1024

/-- A filesystem path, as its list of components (the model of `PathBuf`). -/
abbrev FPath := List String

/-- `underPath base p` holds when `base` is an initial segment of `p`
(the model of `Path::starts_with`, i.e. what `strip_prefix` tests). -/
def underPath : FPath → FPath → Bool
  | [], _ => true
  | _ :: _, [] => false
  | a :: as, b :: bs => a = b && underPath as bs

/-- The watched-files map: source file path to last-observed modification
time (the model of `HashMap<PathBuf, SystemTime>`, with `SystemTime` as a
`Nat`). -/
abbrev WFiles := List (FPath × Nat)

/-- Lookup in the watched-files map (first matching key). -/
def lookupWF : WFiles → FPath → Option Nat
  | [], _ => none
  | (q, m) :: rest, p => if q = p then some m else lookupWF rest p

/-- Insert into the watched-files map, replacing the binding of `p` in place
when present (the model of `HashMap::insert`; the previous value is obtained
separately with `lookupWF`). -/
def insertWF : WFiles → FPath → Nat → WFiles
  | [], p, m => [(p, m)]
  | (q, m0) :: rest, p, m =>
    if q = p then (p, m) :: rest else (q, m0) :: insertWF rest p m

mutual
/-- A source filesystem tree: a regular file with a byte size and a
modification time, a directory with named children, or a node whose
metadata/listing cannot be read (an I/O error during the walk). -/
inductive FsTree where
  | file (size : Nat) (mtime : Nat)
  | dir (children : FsEntries)
  | inaccessible

/-- The named children of a directory, in `read_dir` order. -/
inductive FsEntries where
  | nil
  | cons (name : String) (tree : FsTree) (rest : FsEntries)
end

/-- `WatcherError` from watcher.rs: the two threshold errors recognised by
`SandboxStorages::check` via `downcast_ref`. -/
inductive WatcherError where
  | mountTooManyFiles (count : Nat) (mnt : FPath)
  | mountTooLarge (size : Nat) (mnt : FPath)
deriving DecidableEq

/-- The error type of a scan: either one of the two `WatcherError` threshold
errors, or any other (I/O) failure wrapped in an `anyhow` error. -/
inductive ScanError where
  | watcher (e : WatcherError)
  | other
deriving DecidableEq

/-- `Storage` from watcher.rs: one watched source/target mount pair. -/
structure Storage where
  source_mount_point : FPath
  target_mount_point : FPath
  watch : Bool
  watched_files : WFiles
deriving DecidableEq

/-- `Storage::new`: records the source and mount point of the protobuf
storage descriptor, sets `watch = true` and an empty watched-files map. -/
def Storage.new (source mount_point : FPath) : Storage :=
  { source_mount_point := source
    target_mount_point := mount_point
    watch := true
    watched_files := [] }

/-- `Storage::make_target_path`: strip `source_mount_point` from the given
path and re-root the remainder under `target_mount_point`; paths not under
the source mount point fail. -/
def Storage.make_target_path (s : Storage) (source_file_path : FPath) :
    Except Unit FPath :=
  if underPath s.source_mount_point source_file_path then
    Except.ok (s.target_mount_point ++
      source_file_path.drop s.source_mount_point.length)
  else
    Except.error ()

/-- A filesystem write performed on the target side of a scan. -/
inductive FsAct where
  | remove_file (target : FPath)
  | create_dir_all (dir : FPath)
  | copy (source dest : FPath)
deriving DecidableEq

/-- `Storage::update_target`: copy one changed source file to its target.
`t` is the tree at `source_mount_point` (used for the `is_file` test) and
`copyFails` tells which `fs::copy` calls fail.  Returns the filesystem
actions performed together with the `Result`.  When the source mount point
is a file the copy is file-to-file onto `target_mount_point` with no
directory creation; otherwise the destination parent is created with
`create_dir_all` before the copy. -/
def Storage.update_target (s : Storage) (t : FsTree)
    (copyFails : FPath → Bool) (source_path : FPath) :
    List FsAct × Except Unit Unit :=
  match t with
  | FsTree.file _ _ =>
    if copyFails source_path then ([], Except.error ())
    else ([FsAct.copy source_path s.target_mount_point], Except.ok ())
  | _ =>
    match s.make_target_path source_path with
    | Except.error _ => ([], Except.error ())
    | Except.ok dest =>
      let mk := if dest = [] then [] else [FsAct.create_dir_all dest.dropLast]
      if copyFails source_path then (mk, Except.error ())
      else (mk ++ [FsAct.copy source_path dest], Except.ok ())

mutual
/-- `Storage::scan_path`: recursive walk of one node.  Threads the
watched-files map and the update list (which persist even when the walk
fails, since the Rust code mutates `self.watched_files` in place), and
returns the accumulated size or the error.  A file is recorded in the map,
marked for update when new or strictly newer, and then the entry-count
threshold is checked; after either branch the accumulated size threshold is
checked. -/
def scan_path (mnt : FPath) (wf : WFiles) (upd : List FPath) (path : FPath) :
    FsTree → WFiles × List FPath × Except ScanError Nat
  | FsTree.file fsize fmtime =>
    let old := lookupWF wf path
    let wf1 := insertWF wf path fmtime
    let upd1 := match old with
      | some old_st => if old_st < fmtime then upd ++ [path] else upd
      | none => upd ++ [path]
    if wf1.length ≤ MAX_ENTRIES_PER_STORAGE then
      if fsize ≤ MAX_SIZE_PER_WATCHABLE_MOUNT then
        (wf1, upd1, Except.ok fsize)
      else
        (wf1, upd1, Except.error (ScanError.watcher
          (WatcherError.mountTooLarge fsize mnt)))
    else
      (wf1, upd1, Except.error (ScanError.watcher
        (WatcherError.mountTooManyFiles wf1.length mnt)))
  | FsTree.dir children =>
    match scan_entries mnt wf upd path children with
    | (wf1, upd1, Except.ok size) =>
      if size ≤ MAX_SIZE_PER_WATCHABLE_MOUNT then
        (wf1, upd1, Except.ok size)
      else
        (wf1, upd1, Except.error (ScanError.watcher
          (WatcherError.mountTooLarge size mnt)))
    | r => r
  | FsTree.inaccessible => (wf, upd, Except.error ScanError.other)

/-- The `read_dir` loop inside `Storage::scan_path`: scan each child in
order, accumulating sizes; a child failure aborts the loop with the child's
error and state. -/
def scan_entries (mnt : FPath) (wf : WFiles) (upd : List FPath)
    (path : FPath) : FsEntries → WFiles × List FPath × Except ScanError Nat
  | FsEntries.nil => (wf, upd, Except.ok 0)
  | FsEntries.cons name t rest =>
    match scan_path mnt wf upd (path ++ [name]) t with
    | (wf1, upd1, Except.ok sz1) =>
      match scan_entries mnt wf1 upd1 path rest with
      | (wf2, upd2, Except.ok sz2) => (wf2, upd2, Except.ok (sz1 + sz2))
      | r => r
    | r => r
end

mutual
/-- Whether the path (relative to the node) exists in the tree (the model of
`Path::exists` for paths below the source mount point). -/
def existsNode : FsTree → FPath → Bool
  | _, [] => true
  | FsTree.dir cs, n :: rest => existsInEntries cs n rest
  | FsTree.file _ _, _ :: _ => false
  | FsTree.inaccessible, _ :: _ => false

/-- Existence of `n :: rest` among directory children. -/
def existsInEntries : FsEntries → String → FPath → Bool
  | FsEntries.nil, _, _ => false
  | FsEntries.cons name t es, n, rest =>
    (name = n && existsNode t rest) || existsInEntries es n rest
end

/-- Whether the absolute path `p` exists in the model filesystem, which
consists of the tree `t` rooted at `root`. -/
def pathExists (root : FPath) (t : FsTree) (p : FPath) : Bool :=
  underPath root p && existsNode t (p.drop root.length)

/-- The deletion loop in `Storage::scan`: for each pruned source path, map
it to its target (failure of `make_target_path` propagates out of `scan` via
`?`) and remove the target file, ignoring removal failure. -/
def removeLoop (s : Storage) : List FPath → List FsAct →
    List FsAct × Except ScanError Unit
  | [], acts => (acts, Except.ok ())
  | p :: rest, acts =>
    match s.make_target_path p with
    | Except.error _ => (acts, Except.error ScanError.other)
    | Except.ok target => removeLoop s rest (acts ++ [FsAct.remove_file target])

/-- The update loop in `Storage::scan`: copy each identified file via
`update_target`, logging (and otherwise ignoring) per-file failures. -/
def updLoop (s : Storage) (t : FsTree) (copyFails : FPath → Bool) :
    List FPath → List FsAct
  | [] => []
  | p :: rest =>
    (s.update_target t copyFails p).1 ++ updLoop s t copyFails rest

/-- The outcome of one `Storage::scan`: the storage post-state (the Rust
method mutates `self` in place, so the state survives failures), the
filesystem actions performed, and the returned `Result<usize>`. -/
structure ScanResult where
  storage : Storage
  acts : List FsAct
  res : Except ScanError Nat

/-- `Storage::scan`: one poll cycle.  Prunes watched files that no longer
exist (deleting their targets), walks the source tree for new and changed
files, copies the identified files (ignoring per-file copy failures), and
returns the number of identified files. -/
def Storage.scan (s : Storage) (t : FsTree) (copyFails : FPath → Bool) :
    ScanResult :=
  let keep := s.watched_files.filter
    (fun q => pathExists s.source_mount_point t q.1)
  let removed := (s.watched_files.filter
    (fun q => !pathExists s.source_mount_point t q.1)).map (fun q => q.1)
  match removeLoop s removed [] with
  | (acts0, Except.error e) =>
    ⟨{ s with watched_files := keep }, acts0, Except.error e⟩
  | (acts0, Except.ok ()) =>
    match scan_path s.source_mount_point keep [] s.source_mount_point t with
    | (wf1, _, Except.error e) =>
      ⟨{ s with watched_files := wf1 }, acts0, Except.error e⟩
    | (wf1, upd, Except.ok _) =>
      ⟨{ s with watched_files := wf1 }, acts0 ++ updLoop s t copyFails upd,
        Except.ok upd.length⟩

/-- The environment of one `SandboxStorages::check` cycle: which `fs::copy`
calls fail, whether `baremount` of a source onto its target succeeds,
whether the target mount point already exists, and whether creating a
missing target mount point succeeds. -/
structure CheckEnv where
  copyFails : FPath → Bool
  mountOk : FPath → Bool
  targetExists : FPath → Bool
  ensureTargetOk : FPath → Bool

/-- One iteration of the loop in `SandboxStorages::check` for a single
entry paired with its source tree.  Returns the entry post-state and whether
the loop continues (`false` models the `?` that aborts `check` when creating
a missing target mount point fails).  Entries with `watch = false` are
filtered out (left untouched); a threshold failure triggers the bind-mount
fallback, which clears `watch` only when the mount succeeds; any other scan
failure is logged as a warning. -/
def checkEntry (env : CheckEnv) (e : Storage) (t : FsTree) : Storage × Bool :=
  if e.watch then
    let r := e.scan t env.copyFails
    match r.res with
    | Except.ok _ => (r.storage, true)
    | Except.error (ScanError.watcher _) =>
      if !env.targetExists e.target_mount_point &&
          !env.ensureTargetOk e.target_mount_point then
        (r.storage, false)
      else if env.mountOk e.source_mount_point then
        ({ r.storage with watch := false }, true)
      else
        (r.storage, true)
    | Except.error ScanError.other => (r.storage, true)
  else
    (e, true)

/-- `SandboxStorages::check`: iterate `checkEntry` over the entries (each
paired with its source tree); an abort leaves the remaining entries
untouched and makes `check` return an error (second component `false`). -/
def check (env : CheckEnv) : List (Storage × FsTree) → List Storage × Bool
  | [] => ([], true)
  | (e, t) :: rest =>
    match checkEntry env e t with
    | (e', true) =>
      match check env rest with
      | (out, ok) => (e' :: out, ok)
    | (e', false) => (e' :: rest.map (fun q => q.1), false)

/-- A disposal action performed when a `Storage` is dropped. -/
inductive DisposeAct where
  | unmountTarget (p : FPath)
  | removeDirAllTarget (p : FPath)
deriving DecidableEq

/-- `impl Drop for Storage`: if the entry was not being watched a bind mount
is in place, so unmount the target mount point (failure ignored); in all
cases recursively remove the target mount point (failure ignored).  The
`umountFails` and `rmFails` flags record that failures of either step do not
change what is attempted. -/
def Storage.dropActs (umountFails rmFails : Bool) (s : Storage) :
    List DisposeAct :=
  let _ := umountFails
  let _ := rmFails
  (if s.watch then [] else [DisposeAct.unmountTarget s.target_mount_point]) ++
    [DisposeAct.removeDirAllTarget s.target_mount_point]

/-- Dropping a `SandboxStorages` drops each owned `Storage` in order. -/
def SandboxStorages.dropActs (umountFails rmFails : Bool)
    (entries : List Storage) : List DisposeAct :=
  (entries.map (Storage.dropActs umountFails rmFails)).flatten

/-- `BindWatcher::remove_container`: remove the container's entry from the
registry; dropping its `SandboxStorages` cascades disposal to every owned
`Storage`.  Returns the new registry and the disposal actions. -/
def remove_container (umountFails rmFails : Bool)
    (registry : List (String × List Storage)) (id : String) :
    List (String × List Storage) × List DisposeAct :=
  (registry.filter (fun q => q.1 ≠ id),
    ((registry.filter (fun q => q.1 = id)).map
      (fun q => SandboxStorages.dropActs umountFails rmFails q.2)).flatten)

/-- The target-side filesystem, as the list of existing paths. -/
abbrev TargetFs := List FPath

/-- Membership of a path in the target filesystem. -/
def memFs (g : TargetFs) (p : FPath) : Bool :=
  g.any (fun q => q = p)

/-- Every prefix of `p` (all its ancestors, `p` itself included). -/
def ancestorsOf (p : FPath) : List FPath :=
  (List.range (p.length + 1)).map (fun k => p.take k)

/-- Whether the parent directory of `p` exists in `g` (the root always
exists). -/
def parentOk (g : TargetFs) (p : FPath) : Bool :=
  p.dropLast = [] || memFs g p.dropLast

/-- Apply one filesystem action to the target filesystem: `create_dir_all`
creates the directory and all its ancestors; `copy` creates/overwrites the
destination only when its parent directory exists (`fs::copy` into a missing
directory fails); `remove_file` removes the path. -/
def applyAct (g : TargetFs) : FsAct → TargetFs
  | FsAct.create_dir_all d => g ++ ancestorsOf d
  | FsAct.copy _ dest => if parentOk g dest then g ++ [dest] else g
  | FsAct.remove_file tgt => g.filter (fun q => q ≠ tgt)

/-- Apply a list of filesystem actions in order. -/
def applyActs (g : TargetFs) (acts : List FsAct) : TargetFs :=
  acts.foldl applyAct g

mutual
/-- The number of regular files in a tree. -/
def fileCnt : FsTree → Nat
  | FsTree.file _ _ => 1
  | FsTree.dir cs => fileCntEntries cs
  | FsTree.inaccessible => 0

/-- The number of regular files below a list of directory children. -/
def fileCntEntries : FsEntries → Nat
  | FsEntries.nil => 0
  | FsEntries.cons _ t rest => fileCnt t + fileCntEntries rest
end

mutual
/-- The total byte size of the regular files in a tree. -/
def treeSize : FsTree → Nat
  | FsTree.file sz _ => sz
  | FsTree.dir cs => treeSizeEntries cs
  | FsTree.inaccessible => 0

/-- The total byte size of the regular files below directory children. -/
def treeSizeEntries : FsEntries → Nat
  | FsEntries.nil => 0
  | FsEntries.cons _ t rest => treeSize t + treeSizeEntries rest
end

/-- Whether some directory child carries the given name. -/
def nameIn : FsEntries → String → Bool
  | FsEntries.nil, _ => false
  | FsEntries.cons n _ rest, x => n = x || nameIn rest x

mutual
/-- Well-formedness of a source tree as a real filesystem: sibling names are
distinct (a real directory cannot hold two children of the same name). -/
def dupFree : FsTree → Bool
  | FsTree.file _ _ => true
  | FsTree.dir cs => dupFreeEntries cs
  | FsTree.inaccessible => true

/-- Well-formedness of a child list: pairwise-distinct names, recursively. -/
def dupFreeEntries : FsEntries → Bool
  | FsEntries.nil => true
  | FsEntries.cons n t rest =>
    !nameIn rest n && dupFree t && dupFreeEntries rest
end

mutual
/-- The watched-files map agrees with the tree rooted at `path`: every
regular file of the tree is tracked at exactly its current modification
time. -/
def syncedAt (wf : WFiles) (path : FPath) : FsTree → Prop
  | FsTree.file _ mt => lookupWF wf path = some mt
  | FsTree.dir cs => syncedIn wf path cs
  | FsTree.inaccessible => True

/-- `syncedAt` for each directory child. -/
def syncedIn (wf : WFiles) (path : FPath) : FsEntries → Prop
  | FsEntries.nil => True
  | FsEntries.cons n t rest =>
    syncedAt wf (path ++ [n]) t ∧ syncedIn wf path rest
end

/-! ### Helper lemmas: path prefixes and the watched-files map -/

theorem underPath_append_self (xs ys : FPath) :
    underPath xs (xs ++ ys) = true := by
  induction xs with
  | nil => rfl
  | cons a as ih => simp [underPath, ih]

theorem underPath_exists {xs p : FPath} (h : underPath xs p = true) :
    ∃ s, p = xs ++ s := by
  induction xs generalizing p with
  | nil => exact ⟨p, rfl⟩
  | cons a as ih =>
    cases p with
    | nil => simp [underPath] at h
    | cons b bs =>
      simp only [underPath, Bool.and_eq_true, decide_eq_true_eq] at h
      obtain ⟨rfl, h2⟩ := h
      obtain ⟨s, rfl⟩ := ih h2
      exact ⟨s, rfl⟩

theorem underPath_iff (xs p : FPath) :
    underPath xs p = true ↔ ∃ s, p = xs ++ s := by
  constructor
  · exact underPath_exists
  · rintro ⟨s, rfl⟩; exact underPath_append_self xs s

theorem underPath_of_snoc {xs : FPath} {a : String} {p : FPath}
    (h : underPath (xs ++ [a]) p = true) : underPath xs p = true := by
  obtain ⟨s, rfl⟩ := underPath_exists h
  rw [List.append_assoc]
  exact underPath_append_self xs ([a] ++ s)

theorem underPath_snoc_inj {xs : FPath} {a b : String} {p : FPath}
    (ha : underPath (xs ++ [a]) p = true)
    (hb : underPath (xs ++ [b]) p = true) : a = b := by
  obtain ⟨s, hs⟩ := underPath_exists ha
  obtain ⟨r, hr⟩ := underPath_exists hb
  rw [hs, List.append_assoc, List.append_assoc] at hr
  have h2 := List.append_cancel_left hr
  have h3 : a = b ∧ s = r := by simpa using h2
  exact h3.1

theorem lookupWF_insert_self (wf : WFiles) (p : FPath) (m : Nat) :
    lookupWF (insertWF wf p m) p = some m := by
  induction wf with
  | nil => simp [insertWF, lookupWF]
  | cons q rest ih =>
    by_cases h : q.1 = p
    · obtain ⟨q1, q2⟩ := q
      simp only at h
      simp [insertWF, h, lookupWF]
    · obtain ⟨q1, q2⟩ := q
      simp only at h
      simp [insertWF, h, lookupWF, ih]

theorem lookupWF_insert_ne (wf : WFiles) (p q : FPath) (m : Nat)
    (h : q ≠ p) : lookupWF (insertWF wf p m) q = lookupWF wf q := by
  induction wf with
  | nil => simp [insertWF, lookupWF, Ne.symm h]
  | cons r rest ih =>
    obtain ⟨r1, r2⟩ := r
    by_cases hr : r1 = p
    · subst hr
      simp [insertWF, lookupWF, Ne.symm h]
    · simp [insertWF, hr, lookupWF, ih]

theorem insertWF_id {wf : WFiles} {p : FPath} {m : Nat}
    (h : lookupWF wf p = some m) : insertWF wf p m = wf := by
  induction wf with
  | nil => simp [lookupWF] at h
  | cons q rest ih =>
    obtain ⟨q1, q2⟩ := q
    by_cases hq : q1 = p
    · subst hq
      rw [lookupWF, if_pos rfl] at h
      injection h with h
      simp [insertWF, ← h]
    · simp only [lookupWF, if_neg hq] at h
      simp [insertWF, hq, ih h]

theorem insertWF_length_of_some {wf : WFiles} {p : FPath} {m : Nat}
    (h : (lookupWF wf p).isSome) :
    (insertWF wf p m).length = wf.length := by
  induction wf with
  | nil => simp [lookupWF] at h
  | cons q rest ih =>
    obtain ⟨q1, q2⟩ := q
    by_cases hq : q1 = p
    · simp [insertWF, hq]
    · simp only [lookupWF, if_neg hq] at h
      simp [insertWF, hq, ih h]

theorem insertWF_length_of_none {wf : WFiles} {p : FPath} {m : Nat}
    (h : lookupWF wf p = none) :
    (insertWF wf p m).length = wf.length + 1 := by
  induction wf with
  | nil => simp [insertWF]
  | cons q rest ih =>
    obtain ⟨q1, q2⟩ := q
    by_cases hq : q1 = p
    · simp [lookupWF, hq] at h
    · simp only [lookupWF, if_neg hq] at h
      simp [insertWF, hq, ih h]

theorem lookupWF_isSome_of_mem {wf : WFiles} {p : FPath} {m : Nat}
    (h : (p, m) ∈ wf) : (lookupWF wf p).isSome := by
  induction wf with
  | nil => simp at h
  | cons q rest ih =>
    obtain ⟨q1, q2⟩ := q
    rcases List.mem_cons.mp h with h1 | h1
    · cases h1
      simp [lookupWF]
    · by_cases hq : q1 = p
      · simp [lookupWF, hq]
      · simp [lookupWF, hq, ih h1]

theorem lookupWF_filter_isSome {pred : FPath × Nat → Bool} {wf : WFiles}
    {p : FPath} (h : (lookupWF (wf.filter pred) p).isSome) :
    ∃ m, (p, m) ∈ wf ∧ pred (p, m) = true := by
  induction wf with
  | nil => simp [lookupWF] at h
  | cons q rest ih =>
    obtain ⟨q1, q2⟩ := q
    by_cases hp : pred (q1, q2)
    · rw [List.filter_cons_of_pos hp] at h
      by_cases hq : q1 = p
      · subst hq
        exact ⟨q2, List.mem_cons_self _ _, hp⟩
      · rw [lookupWF, if_neg hq] at h
        obtain ⟨m, hm, hpm⟩ := ih h
        exact ⟨m, List.mem_cons_of_mem _ hm, hpm⟩
    · rw [List.filter_cons_of_neg (by simpa using hp)] at h
      obtain ⟨m, hm, hpm⟩ := ih h
      exact ⟨m, List.mem_cons_of_mem _ hm, hpm⟩

/-! ### Walk lemmas: trees without files, threshold errors, sizes -/

mutual
theorem scan_path_nofiles (mnt : FPath) (wf : WFiles) (upd : List FPath)
    (path : FPath) (t : FsTree) (h : fileCnt t = 0) :
    (scan_path mnt wf upd path t).1 = wf ∧
      (scan_path mnt wf upd path t).2.1 = upd := by
  cases t with
  | file fsize fmtime => simp [fileCnt] at h
  | dir cs =>
    have ih := scan_entries_nofiles mnt wf upd path cs (by simpa [fileCnt] using h)
    simp only [scan_path]
    rcases hse : scan_entries mnt wf upd path cs with ⟨wf1, upd1, res1⟩
    rw [hse] at ih
    simp only at ih
    cases res1 with
    | ok sz =>
      obtain ⟨rfl, rfl⟩ := ih
      by_cases hsz : sz ≤ MAX_SIZE_PER_WATCHABLE_MOUNT <;> simp [hse, hsz]
    | error e => simpa [hse] using ih
  | inaccessible => simp [scan_path]

theorem scan_entries_nofiles (mnt : FPath) (wf : WFiles) (upd : List FPath)
    (path : FPath) (cs : FsEntries) (h : fileCntEntries cs = 0) :
    (scan_entries mnt wf upd path cs).1 = wf ∧
      (scan_entries mnt wf upd path cs).2.1 = upd := by
  cases cs with
  | nil => simp [scan_entries]
  | cons n t rest =>
    simp only [fileCntEntries, Nat.add_eq_zero] at h
    have ih1 := scan_path_nofiles mnt wf upd (path ++ [n]) t h.1
    simp only [scan_entries]
    rcases hsp : scan_path mnt wf upd (path ++ [n]) t with ⟨wf1, upd1, res1⟩
    rw [hsp] at ih1
    simp only at ih1
    obtain ⟨rfl, rfl⟩ := ih1
    cases res1 with
    | ok sz1 =>
      have ih2 := scan_entries_nofiles mnt wf1 upd1 path rest h.2
      rcases hse : scan_entries mnt wf1 upd1 path rest with ⟨wf2, upd2, res2⟩
      rw [hse] at ih2
      simp only at ih2
      obtain ⟨rfl, rfl⟩ := ih2
      cases res2 with
      | ok sz2 => simp [hsp, hse]
      | error e => simp [hsp, hse]
    | error e => simp [hsp]
end

mutual
theorem scan_path_tooMany (mnt : FPath) (wf : WFiles) (upd : List FPath)
    (path : FPath) (t : FsTree) :
    ∀ wf' upd' c m,
      scan_path mnt wf upd path t =
        (wf', upd', Except.error (ScanError.watcher
          (WatcherError.mountTooManyFiles c m))) →
      MAX_ENTRIES_PER_STORAGE < c ∧ m = mnt ∧ c = wf'.length := by
  intro wf' upd' c m h
  cases t with
  | file fsize fmtime =>
    simp only [scan_path] at h
    split at h
    · split at h <;> simp at h
    · rename_i hlen
      simp only [Prod.mk.injEq, Except.error.injEq, ScanError.watcher.injEq,
        WatcherError.mountTooManyFiles.injEq] at h
      obtain ⟨rfl, -, rfl, rfl⟩ := h
      exact ⟨by omega, rfl, rfl⟩
  | dir cs =>
    rcases hse : scan_entries mnt wf upd path cs with ⟨wf1, upd1, res1⟩
    cases res1 with
    | ok sz =>
      simp only [scan_path, hse] at h
      split at h <;> simp at h
    | error e =>
      simp only [scan_path, hse] at h
      simp only [Prod.mk.injEq, Except.error.injEq] at h
      obtain ⟨rfl, rfl, rfl⟩ := h
      exact scan_entries_tooMany mnt wf upd path cs _ _ c m hse
  | inaccessible => simp [scan_path] at h

theorem scan_entries_tooMany (mnt : FPath) (wf : WFiles) (upd : List FPath)
    (path : FPath) (cs : FsEntries) :
    ∀ wf' upd' c m,
      scan_entries mnt wf upd path cs =
        (wf', upd', Except.error (ScanError.watcher
          (WatcherError.mountTooManyFiles c m))) →
      MAX_ENTRIES_PER_STORAGE < c ∧ m = mnt ∧ c = wf'.length := by
  intro wf' upd' c m h
  cases cs with
  | nil => simp [scan_entries] at h
  | cons n t rest =>
    rcases hsp : scan_path mnt wf upd (path ++ [n]) t with ⟨wf1, upd1, res1⟩
    cases res1 with
    | ok sz1 =>
      rcases hse : scan_entries mnt wf1 upd1 path rest with ⟨wf2, upd2, res2⟩
      cases res2 with
      | ok sz2 => simp [scan_entries, hsp, hse] at h
      | error e =>
        simp only [scan_entries, hsp, hse] at h
        simp only [Prod.mk.injEq, Except.error.injEq] at h
        obtain ⟨rfl, rfl, rfl⟩ := h
        exact scan_entries_tooMany mnt wf1 upd1 path rest _ _ c m hse
    | error e =>
      simp only [scan_entries, hsp] at h
      simp only [Prod.mk.injEq, Except.error.injEq] at h
      obtain ⟨rfl, rfl, rfl⟩ := h
      exact scan_path_tooMany mnt wf upd (path ++ [n]) t _ _ c m hsp
end

mutual
theorem scan_path_tooLarge (mnt : FPath) (wf : WFiles) (upd : List FPath)
    (path : FPath) (t : FsTree) :
    ∀ wf' upd' sz m,
      scan_path mnt wf upd path t =
        (wf', upd', Except.error (ScanError.watcher
          (WatcherError.mountTooLarge sz m))) →
      MAX_SIZE_PER_WATCHABLE_MOUNT < sz ∧ m = mnt := by
  intro wf' upd' sz m h
  cases t with
  | file fsize fmtime =>
    simp only [scan_path] at h
    split at h
    · split at h
      · simp at h
      · rename_i hsz
        simp only [Prod.mk.injEq, Except.error.injEq, ScanError.watcher.injEq,
          WatcherError.mountTooLarge.injEq] at h
        obtain ⟨-, -, rfl, rfl⟩ := h
        exact ⟨by omega, rfl⟩
    · simp at h
  | dir cs =>
    rcases hse : scan_entries mnt wf upd path cs with ⟨wf1, upd1, res1⟩
    cases res1 with
    | ok szc =>
      simp only [scan_path, hse] at h
      split at h
      · simp at h
      · rename_i hsz
        simp only [Prod.mk.injEq, Except.error.injEq, ScanError.watcher.injEq,
          WatcherError.mountTooLarge.injEq] at h
        obtain ⟨-, -, rfl, rfl⟩ := h
        exact ⟨by omega, rfl⟩
    | error e =>
      simp only [scan_path, hse] at h
      simp only [Prod.mk.injEq, Except.error.injEq] at h
      obtain ⟨rfl, rfl, rfl⟩ := h
      exact scan_entries_tooLarge mnt wf upd path cs _ _ sz m hse
  | inaccessible => simp [scan_path] at h

theorem scan_entries_tooLarge (mnt : FPath) (wf : WFiles) (upd : List FPath)
    (path : FPath) (cs : FsEntries) :
    ∀ wf' upd' sz m,
      scan_entries mnt wf upd path cs =
        (wf', upd', Except.error (ScanError.watcher
          (WatcherError.mountTooLarge sz m))) →
      MAX_SIZE_PER_WATCHABLE_MOUNT < sz ∧ m = mnt := by
  intro wf' upd' sz m h
  cases cs with
  | nil => simp [scan_entries] at h
  | cons n t rest =>
    rcases hsp : scan_path mnt wf upd (path ++ [n]) t with ⟨wf1, upd1, res1⟩
    cases res1 with
    | ok sz1 =>
      rcases hse : scan_entries mnt wf1 upd1 path rest with ⟨wf2, upd2, res2⟩
      cases res2 with
      | ok sz2 => simp [scan_entries, hsp, hse] at h
      | error e =>
        simp only [scan_entries, hsp, hse] at h
        simp only [Prod.mk.injEq, Except.error.injEq] at h
        obtain ⟨rfl, rfl, rfl⟩ := h
        exact scan_entries_tooLarge mnt wf1 upd1 path rest _ _ sz m hse
    | error e =>
      simp only [scan_entries, hsp] at h
      simp only [Prod.mk.injEq, Except.error.injEq] at h
      obtain ⟨rfl, rfl, rfl⟩ := h
      exact scan_path_tooLarge mnt wf upd (path ++ [n]) t _ _ sz m hsp
end

theorem scan_path_ok_le (mnt : FPath) (wf : WFiles) (upd : List FPath)
    (path : FPath) (t : FsTree) :
    ∀ wf' upd' sz,
      scan_path mnt wf upd path t = (wf', upd', Except.ok sz) →
      sz ≤ MAX_SIZE_PER_WATCHABLE_MOUNT := by
  intro wf' upd' sz h
  cases t with
  | file fsize fmtime =>
    simp only [scan_path] at h
    split at h
    · split at h
      · rename_i hsz
        simp only [Prod.mk.injEq, Except.ok.injEq] at h
        omega
      · simp at h
    · simp at h
  | dir cs =>
    rcases hse : scan_entries mnt wf upd path cs with ⟨wf1, upd1, res1⟩
    cases res1 with
    | ok szc =>
      simp only [scan_path, hse] at h
      split at h
      · rename_i hsz
        simp only [Prod.mk.injEq, Except.ok.injEq] at h
        omega
      · simp at h
    | error e => simp [scan_path, hse] at h
  | inaccessible => simp [scan_path] at h

theorem underPath_refl (p : FPath) : underPath p p = true := by
  have := underPath_append_self p []
  simpa using this

mutual
theorem scan_path_ok_size (mnt : FPath) (wf : WFiles) (upd : List FPath)
    (path : FPath) (t : FsTree) :
    ∀ wf' upd' sz,
      scan_path mnt wf upd path t = (wf', upd', Except.ok sz) →
      sz = treeSize t := by
  intro wf' upd' sz h
  cases t with
  | file fsize fmtime =>
    simp only [scan_path] at h
    split at h
    · split at h
      · simp only [Prod.mk.injEq, Except.ok.injEq] at h
        simp [treeSize, h.2.2]
      · simp at h
    · simp at h
  | dir cs =>
    rcases hse : scan_entries mnt wf upd path cs with ⟨wf1, upd1, res1⟩
    cases res1 with
    | ok szc =>
      have ih := scan_entries_ok_size mnt wf upd path cs wf1 upd1 szc hse
      simp only [scan_path, hse] at h
      split at h
      · simp only [Prod.mk.injEq, Except.ok.injEq] at h
        simp [treeSize, ← h.2.2, ih]
      · simp at h
    | error e => simp [scan_path, hse] at h
  | inaccessible => simp [scan_path] at h

theorem scan_entries_ok_size (mnt : FPath) (wf : WFiles) (upd : List FPath)
    (path : FPath) (cs : FsEntries) :
    ∀ wf' upd' sz,
      scan_entries mnt wf upd path cs = (wf', upd', Except.ok sz) →
      sz = treeSizeEntries cs := by
  intro wf' upd' sz h
  cases cs with
  | nil =>
    simp only [scan_entries, Prod.mk.injEq, Except.ok.injEq] at h
    simp [treeSizeEntries, ← h.2.2]
  | cons n t rest =>
    rcases hsp : scan_path mnt wf upd (path ++ [n]) t with ⟨wf1, upd1, res1⟩
    cases res1 with
    | ok sz1 =>
      rcases hse : scan_entries mnt wf1 upd1 path rest with ⟨wf2, upd2, res2⟩
      cases res2 with
      | ok sz2 =>
        have ih1 := scan_path_ok_size mnt wf upd (path ++ [n]) t wf1 upd1 sz1 hsp
        have ih2 := scan_entries_ok_size mnt wf1 upd1 path rest wf2 upd2 sz2 hse
        simp only [scan_entries, hsp, hse, Prod.mk.injEq, Except.ok.injEq] at h
        simp [treeSizeEntries, ← h.2.2, ih1, ih2]
      | error e => simp [scan_entries, hsp, hse] at h
    | error e => simp [scan_entries, hsp] at h
end

mutual
theorem scan_path_ok_len (mnt : FPath) (wf : WFiles) (upd : List FPath)
    (path : FPath) (t : FsTree) :
    ∀ wf' upd' sz,
      scan_path mnt wf upd path t = (wf', upd', Except.ok sz) →
      0 < fileCnt t →
      wf'.length ≤ MAX_ENTRIES_PER_STORAGE := by
  intro wf' upd' sz h hcnt
  cases t with
  | file fsize fmtime =>
    simp only [scan_path] at h
    split at h
    · rename_i hlen
      split at h
      · simp only [Prod.mk.injEq] at h
        rw [← h.1]
        exact hlen
      · simp at h
    · simp at h
  | dir cs =>
    rcases hse : scan_entries mnt wf upd path cs with ⟨wf1, upd1, res1⟩
    cases res1 with
    | ok szc =>
      have ih := scan_entries_ok_len mnt wf upd path cs wf1 upd1 szc hse
        (by simpa [fileCnt] using hcnt)
      simp only [scan_path, hse] at h
      split at h
      · simp only [Prod.mk.injEq] at h
        rw [← h.1]
        exact ih
      · simp at h
    | error e => simp [scan_path, hse] at h
  | inaccessible => simp [fileCnt] at hcnt

theorem scan_entries_ok_len (mnt : FPath) (wf : WFiles) (upd : List FPath)
    (path : FPath) (cs : FsEntries) :
    ∀ wf' upd' sz,
      scan_entries mnt wf upd path cs = (wf', upd', Except.ok sz) →
      0 < fileCntEntries cs →
      wf'.length ≤ MAX_ENTRIES_PER_STORAGE := by
  intro wf' upd' sz h hcnt
  cases cs with
  | nil => simp [fileCntEntries] at hcnt
  | cons n t rest =>
    rcases hsp : scan_path mnt wf upd (path ++ [n]) t with ⟨wf1, upd1, res1⟩
    cases res1 with
    | ok sz1 =>
      rcases hse : scan_entries mnt wf1 upd1 path rest with ⟨wf2, upd2, res2⟩
      cases res2 with
      | ok sz2 =>
        simp only [scan_entries, hsp, hse, Prod.mk.injEq] at h
        rw [← h.1]
        by_cases hr : 0 < fileCntEntries rest
        · exact scan_entries_ok_len mnt wf1 upd1 path rest wf2 upd2 sz2 hse hr
        · have hz : fileCntEntries rest = 0 := by omega
          have hid := scan_entries_nofiles mnt wf1 upd1 path rest hz
          rw [hse] at hid
          simp only at hid
          rw [hid.1]
          have hct : 0 < fileCnt t := by
            simp only [fileCntEntries] at hcnt
            omega
          exact scan_path_ok_len mnt wf upd (path ++ [n]) t wf1 upd1 sz1 hsp hct
      | error e => simp [scan_entries, hsp, hse] at h
    | error e => simp [scan_entries, hsp] at h
end

mutual
theorem scan_path_outside (mnt : FPath) (wf : WFiles) (upd : List FPath)
    (path : FPath) (t : FsTree) :
    ∀ p, underPath path p = false →
      lookupWF (scan_path mnt wf upd path t).1 p = lookupWF wf p := by
  intro p hp
  cases t with
  | file fsize fmtime =>
    have hne : p ≠ path := by
      intro e
      rw [e, underPath_refl] at hp
      simp at hp
    simp only [scan_path]
    have hins := lookupWF_insert_ne wf path p fmtime hne
    split
    · split <;> simpa using hins
    · simpa using hins
  | dir cs =>
    have harg : ∀ n, nameIn cs n = true → underPath (path ++ [n]) p = false := by
      intro n _
      cases hb : underPath (path ++ [n]) p
      · rfl
      · rw [underPath_of_snoc hb] at hp
        simp at hp
    have ih := scan_entries_outside mnt wf upd path cs p harg
    rcases hse : scan_entries mnt wf upd path cs with ⟨wf1, upd1, res1⟩
    rw [hse] at ih
    simp only at ih
    cases res1 with
    | ok szc =>
      simp only [scan_path, hse]
      split <;> simpa using ih
    | error e => simpa [scan_path, hse] using ih
  | inaccessible => simp [scan_path]

theorem scan_entries_outside (mnt : FPath) (wf : WFiles) (upd : List FPath)
    (path : FPath) (cs : FsEntries) :
    ∀ p, (∀ n, nameIn cs n = true → underPath (path ++ [n]) p = false) →
      lookupWF (scan_entries mnt wf upd path cs).1 p = lookupWF wf p := by
  intro p hp
  cases cs with
  | nil => simp [scan_entries]
  | cons n t rest =>
    have hchild := scan_path_outside mnt wf upd (path ++ [n]) t p
      (hp n (by simp [nameIn]))
    rcases hsp : scan_path mnt wf upd (path ++ [n]) t with ⟨wf1, upd1, res1⟩
    rw [hsp] at hchild
    simp only at hchild
    cases res1 with
    | ok sz1 =>
      have hrest := scan_entries_outside mnt wf1 upd1 path rest p
        (fun n' hn' => hp n' (by simp [nameIn, hn']))
      rcases hse : scan_entries mnt wf1 upd1 path rest with ⟨wf2, upd2, res2⟩
      rw [hse] at hrest
      simp only at hrest
      cases res2 with
      | ok sz2 => simp [scan_entries, hsp, hse, hrest, hchild]
      | error e => simp [scan_entries, hsp, hse, hrest, hchild]
    | error e => simp [scan_entries, hsp, hchild]
end

mutual
theorem syncedAt_congr (wf1 wf2 : WFiles) (base : FPath) (t : FsTree)
    (hl : ∀ p, underPath base p = true → lookupWF wf2 p = lookupWF wf1 p) :
    syncedAt wf1 base t → syncedAt wf2 base t := by
  intro hs
  cases t with
  | file fsize fmtime =>
    simp only [syncedAt] at hs ⊢
    rw [hl base (underPath_refl base)]
    exact hs
  | dir cs =>
    simp only [syncedAt] at hs ⊢
    exact syncedIn_congr wf1 wf2 base cs hl hs
  | inaccessible => simp [syncedAt]

theorem syncedIn_congr (wf1 wf2 : WFiles) (base : FPath) (cs : FsEntries)
    (hl : ∀ p, underPath base p = true → lookupWF wf2 p = lookupWF wf1 p) :
    syncedIn wf1 base cs → syncedIn wf2 base cs := by
  intro hs
  cases cs with
  | nil => simp [syncedIn]
  | cons n t rest =>
    simp only [syncedIn] at hs ⊢
    refine ⟨?_, syncedIn_congr wf1 wf2 base rest hl hs.2⟩
    refine syncedAt_congr wf1 wf2 (base ++ [n]) t ?_ hs.1
    intro p hp
    exact hl p (underPath_of_snoc hp)
end

mutual
theorem scan_path_synced (mnt : FPath) (wf : WFiles) (upd : List FPath)
    (path : FPath) (t : FsTree) (hdf : dupFree t = true) :
    ∀ wf' upd' sz,
      scan_path mnt wf upd path t = (wf', upd', Except.ok sz) →
      syncedAt wf' path t := by
  intro wf' upd' sz h
  cases t with
  | file fsize fmtime =>
    simp only [scan_path] at h
    split at h
    · split at h
      · simp only [Prod.mk.injEq] at h
        rw [syncedAt, ← h.1]
        exact lookupWF_insert_self wf path fmtime
      · simp at h
    · simp at h
  | dir cs =>
    rcases hse : scan_entries mnt wf upd path cs with ⟨wf1, upd1, res1⟩
    cases res1 with
    | ok szc =>
      have ih := scan_entries_synced mnt wf upd path cs
        (by simpa [dupFree] using hdf) wf1 upd1 szc hse
      simp only [scan_path, hse] at h
      split at h
      · simp only [Prod.mk.injEq] at h
        rw [syncedAt, ← h.1]
        exact ih
      · simp at h
    | error e => simp [scan_path, hse] at h
  | inaccessible => simp [syncedAt]

theorem scan_entries_synced (mnt : FPath) (wf : WFiles) (upd : List FPath)
    (path : FPath) (cs : FsEntries) (hdf : dupFreeEntries cs = true) :
    ∀ wf' upd' sz,
      scan_entries mnt wf upd path cs = (wf', upd', Except.ok sz) →
      syncedIn wf' path cs := by
  intro wf' upd' sz h
  cases cs with
  | nil => simp [syncedIn]
  | cons n t rest =>
    simp only [dupFreeEntries, Bool.and_eq_true, Bool.not_eq_true'] at hdf
    obtain ⟨⟨hnm, hdt⟩, hdr⟩ := hdf
    rcases hsp : scan_path mnt wf upd (path ++ [n]) t with ⟨wf1, upd1, res1⟩
    cases res1 with
    | ok sz1 =>
      have hsc := scan_path_synced mnt wf upd (path ++ [n]) t hdt wf1 upd1 sz1 hsp
      rcases hse : scan_entries mnt wf1 upd1 path rest with ⟨wf2, upd2, res2⟩
      cases res2 with
      | ok sz2 =>
        have hsr := scan_entries_synced mnt wf1 upd1 path rest hdr wf2 upd2 sz2 hse
        simp only [scan_entries, hsp, hse, Prod.mk.injEq] at h
        rw [syncedIn, ← h.1]
        have htr : ∀ p, underPath (path ++ [n]) p = true →
            lookupWF wf2 p = lookupWF wf1 p := by
          intro p hp
          have harg : ∀ n', nameIn rest n' = true →
              underPath (path ++ [n']) p = false := by
            intro n' hn'
            cases hb : underPath (path ++ [n']) p
            · rfl
            · have : n' = n := underPath_snoc_inj hb hp
              rw [this] at hn'
              rw [hn'] at hnm
              simp at hnm
          have := scan_entries_outside mnt wf1 upd1 path rest p harg
          rw [hse] at this
          simpa using this
        exact ⟨syncedAt_congr wf1 wf2 (path ++ [n]) t htr hsc, hsr⟩
      | error e => simp [scan_entries, hsp, hse] at h
    | error e => simp [scan_entries, hsp] at h
end

mutual
theorem scan_path_rescan (mnt : FPath) (path : FPath) (t : FsTree) :
    ∀ wf0 upd0 wfA updA szA wf upd,
      scan_path mnt wf0 upd0 path t = (wfA, updA, Except.ok szA) →
      syncedAt wf path t →
      (0 < fileCnt t → wf.length ≤ MAX_ENTRIES_PER_STORAGE) →
      scan_path mnt wf upd path t = (wf, upd, Except.ok szA) := by
  intro wf0 upd0 wfA updA szA wf upd hA hsync hcnt
  cases t with
  | file fsize fmtime =>
    simp only [scan_path] at hA
    split at hA
    · split at hA
      · rename_i hlen0 hsz
        simp only [Prod.mk.injEq, Except.ok.injEq] at hA
        simp only [syncedAt] at hsync
        have hid := insertWF_id hsync
        have hl : wf.length ≤ MAX_ENTRIES_PER_STORAGE :=
          hcnt (by simp [fileCnt])
        simp only [scan_path, hsync, hid]
        rw [if_pos (by simpa [hid] using hl), if_pos hsz]
        simp [← hA.2.2]
      · simp at hA
    · simp at hA
  | dir cs =>
    rcases hse : scan_entries mnt wf0 upd0 path cs with ⟨wf1, upd1, res1⟩
    cases res1 with
    | ok szc =>
      simp only [scan_path, hse] at hA
      split at hA
      · rename_i hsz
        simp only [Prod.mk.injEq, Except.ok.injEq] at hA
        have ih := scan_entries_rescan mnt path cs wf0 upd0 wf1 upd1 szc wf upd
          hse (by simpa [syncedAt] using hsync)
          (by simpa [fileCnt] using hcnt)
        simp only [scan_path, ih]
        rw [if_pos hsz]
        simp [← hA.2.2]
      · simp at hA
    | error e => simp [scan_path, hse] at hA
  | inaccessible => simp [scan_path] at hA

theorem scan_entries_rescan (mnt : FPath) (path : FPath) (cs : FsEntries) :
    ∀ wf0 upd0 wfA updA szA wf upd,
      scan_entries mnt wf0 upd0 path cs = (wfA, updA, Except.ok szA) →
      syncedIn wf path cs →
      (0 < fileCntEntries cs → wf.length ≤ MAX_ENTRIES_PER_STORAGE) →
      scan_entries mnt wf upd path cs = (wf, upd, Except.ok szA) := by
  intro wf0 upd0 wfA updA szA wf upd hA hsync hcnt
  cases cs with
  | nil =>
    simp only [scan_entries, Prod.mk.injEq, Except.ok.injEq] at hA
    simp [scan_entries, ← hA.2.2]
  | cons n t rest =>
    simp only [syncedIn] at hsync
    rcases hsp : scan_path mnt wf0 upd0 (path ++ [n]) t with ⟨wf1, upd1, res1⟩
    cases res1 with
    | ok sz1 =>
      rcases hse : scan_entries mnt wf1 upd1 path rest with ⟨wf2, upd2, res2⟩
      cases res2 with
      | ok sz2 =>
        simp only [scan_entries, hsp, hse, Prod.mk.injEq, Except.ok.injEq] at hA
        have ih1 := scan_path_rescan mnt (path ++ [n]) t wf0 upd0 wf1 upd1 sz1
          wf upd hsp hsync.1
          (fun hc => hcnt (by simp only [fileCntEntries]; omega))
        have ih2 := scan_entries_rescan mnt path rest wf1 upd1 wf2 upd2 sz2
          wf upd hse hsync.2
          (fun hc => hcnt (by simp only [fileCntEntries]; omega))
        simp only [scan_entries, ih1, ih2]
        simp [← hA.2.2]
      | error e => simp [scan_entries, hsp, hse] at hA
    | error e => simp [scan_entries, hsp] at hA
end

mutual
theorem scan_path_keys (mnt : FPath) (wf : WFiles) (upd : List FPath)
    (path : FPath) (t : FsTree) :
    ∀ wf' upd' sz p,
      scan_path mnt wf upd path t = (wf', upd', Except.ok sz) →
      (lookupWF wf' p).isSome = true →
      (lookupWF wf p).isSome = true ∨
        ∃ s, p = path ++ s ∧ existsNode t s = true := by
  intro wf' upd' sz p h hp
  cases t with
  | file fsize fmtime =>
    simp only [scan_path] at h
    split at h
    · split at h
      · simp only [Prod.mk.injEq] at h
        rw [← h.1] at hp
        by_cases hpp : p = path
        · right
          exact ⟨[], by simpa using hpp, by simp [existsNode]⟩
        · left
          rwa [lookupWF_insert_ne wf path p fmtime hpp] at hp
      · simp at h
    · simp at h
  | dir cs =>
    rcases hse : scan_entries mnt wf upd path cs with ⟨wf1, upd1, res1⟩
    cases res1 with
    | ok szc =>
      simp only [scan_path, hse] at h
      split at h
      · simp only [Prod.mk.injEq] at h
        rw [← h.1] at hp
        rcases scan_entries_keys mnt wf upd path cs wf1 upd1 szc p hse hp with
          hl | ⟨n, s, hps, hex⟩
        · exact Or.inl hl
        · exact Or.inr ⟨n :: s, hps, by simpa [existsNode] using hex⟩
      · simp at h
    | error e => simp [scan_path, hse] at h
  | inaccessible => simp [scan_path] at h

theorem scan_entries_keys (mnt : FPath) (wf : WFiles) (upd : List FPath)
    (path : FPath) (cs : FsEntries) :
    ∀ wf' upd' sz p,
      scan_entries mnt wf upd path cs = (wf', upd', Except.ok sz) →
      (lookupWF wf' p).isSome = true →
      (lookupWF wf p).isSome = true ∨
        ∃ n s, p = path ++ n :: s ∧ existsInEntries cs n s = true := by
  intro wf' upd' sz p h hp
  cases cs with
  | nil =>
    simp only [scan_entries, Prod.mk.injEq] at h
    rw [← h.1] at hp
    exact Or.inl hp
  | cons n t rest =>
    rcases hsp : scan_path mnt wf upd (path ++ [n]) t with ⟨wf1, upd1, res1⟩
    cases res1 with
    | ok sz1 =>
      rcases hse : scan_entries mnt wf1 upd1 path rest with ⟨wf2, upd2, res2⟩
      cases res2 with
      | ok sz2 =>
        simp only [scan_entries, hsp, hse, Prod.mk.injEq] at h
        rw [← h.1] at hp
        rcases scan_entries_keys mnt wf1 upd1 path rest wf2 upd2 sz2 p hse hp with
          hl | ⟨n', s', hps, hex⟩
        · rcases scan_path_keys mnt wf upd (path ++ [n]) t wf1 upd1 sz1 p hsp hl with
            hl2 | ⟨s, hps, hex⟩
          · exact Or.inl hl2
          · refine Or.inr ⟨n, s, by simpa [List.append_assoc] using hps, ?_⟩
            simp [existsInEntries, hex]
        · refine Or.inr ⟨n', s', hps, ?_⟩
          simp [existsInEntries, hex]
      | error e => simp [scan_entries, hsp, hse] at h
    | error e => simp [scan_entries, hsp] at h
end

/-! ### Idempotence of `Storage::scan` on an unchanged source tree -/

theorem scan_keys_exist (s : Storage) (t : FsTree) (wf1 : WFiles)
    (upd : List FPath) (szA : Nat)
    (hsp : scan_path s.source_mount_point
      (s.watched_files.filter
        (fun q => pathExists s.source_mount_point t q.1))
      [] s.source_mount_point t = (wf1, upd, Except.ok szA)) :
    ∀ q ∈ wf1, pathExists s.source_mount_point t q.1 = true := by
  intro q hq
  obtain ⟨p, m⟩ := q
  have hsome := lookupWF_isSome_of_mem hq
  rcases scan_path_keys s.source_mount_point _ [] s.source_mount_point t
      wf1 upd szA p hsp hsome with hl | ⟨s0, rfl, hex⟩
  · obtain ⟨m', _, hpred⟩ := lookupWF_filter_isSome hl
    exact hpred
  · simp only [pathExists, underPath_append_self, Bool.true_and]
    rw [List.drop_left]
    exact hex

theorem scan_rescan (s s1 : Storage) (t : FsTree) (cf cf' : FPath → Bool)
    (acts : List FsAct) (n : Nat) (hdf : dupFree t = true)
    (h : s.scan t cf = ⟨s1, acts, Except.ok n⟩) :
    s1.scan t cf' = ⟨s1, [], Except.ok 0⟩ := by
  rcases hrl : removeLoop s ((s.watched_files.filter
      (fun q => !pathExists s.source_mount_point t q.1)).map (fun q => q.1)) []
    with ⟨acts0, rl⟩
  cases rl with
  | error e => simp [Storage.scan, hrl] at h
  | ok u =>
    cases u
    rcases hsp : scan_path s.source_mount_point
        (s.watched_files.filter
          (fun q => pathExists s.source_mount_point t q.1))
        [] s.source_mount_point t with ⟨wf1, upd, res1⟩
    cases res1 with
    | error e => simp [Storage.scan, hrl, hsp] at h
    | ok szA =>
      simp only [Storage.scan, hrl, hsp, ScanResult.mk.injEq] at h
      obtain ⟨hs1, -, -⟩ := h
      subst hs1
      have hall := scan_keys_exist s t wf1 upd szA hsp
      have hfe : wf1.filter
          (fun q => pathExists s.source_mount_point t q.1) = wf1 :=
        List.filter_eq_self.mpr hall
      have hfn : wf1.filter
          (fun q => !pathExists s.source_mount_point t q.1) = [] := by
        rw [List.filter_eq_nil_iff]
        intro a ha
        simp [hall a ha]
      have hsync := scan_path_synced s.source_mount_point _ []
        s.source_mount_point t hdf wf1 upd szA hsp
      have hcnt : 0 < fileCnt t → wf1.length ≤ MAX_ENTRIES_PER_STORAGE :=
        fun hc => scan_path_ok_len s.source_mount_point _ []
          s.source_mount_point t wf1 upd szA hsp hc
      have hrs := scan_path_rescan s.source_mount_point s.source_mount_point t
        _ [] wf1 upd szA wf1 [] hsp hsync hcnt
      simp [Storage.scan, hfe, hfn, removeLoop, hrs, updLoop]

/-! ### Target filesystem and check-cycle helper lemmas -/

theorem memFs_append (g h : TargetFs) (p : FPath) :
    memFs (g ++ h) p = (memFs g p || memFs h p) := by
  simp [memFs, List.any_append]

theorem memFs_ancestorsOf_self (p : FPath) :
    memFs (ancestorsOf p) p = true := by
  simp only [memFs, List.any_eq_true, decide_eq_true_eq]
  refine ⟨p, ?_, rfl⟩
  simp only [ancestorsOf, List.mem_map, List.mem_range]
  exact ⟨p.length, by omega, List.take_length p⟩

theorem scan_storage_fields (s : Storage) (t : FsTree) (cf : FPath → Bool) :
    (s.scan t cf).storage.watch = s.watch ∧
      (s.scan t cf).storage.source_mount_point = s.source_mount_point ∧
      (s.scan t cf).storage.target_mount_point = s.target_mount_point := by
  rcases hrl : removeLoop s ((s.watched_files.filter
      (fun q => !pathExists s.source_mount_point t q.1)).map (fun q => q.1)) []
    with ⟨acts0, rl⟩
  cases rl with
  | error e => simp [Storage.scan, hrl]
  | ok u =>
    cases u
    rcases hsp : scan_path s.source_mount_point
        (s.watched_files.filter
          (fun q => pathExists s.source_mount_point t q.1))
        [] s.source_mount_point t with ⟨wf1, upd, res1⟩
    cases res1 with
    | error e => simp [Storage.scan, hrl, hsp]
    | ok szA => simp [Storage.scan, hrl, hsp]

theorem scan_copyFails_indep (s : Storage) (t : FsTree)
    (cf cf' : FPath → Bool) :
    (s.scan t cf).res = (s.scan t cf').res ∧
      (s.scan t cf).storage = (s.scan t cf').storage := by
  rcases hrl : removeLoop s ((s.watched_files.filter
      (fun q => !pathExists s.source_mount_point t q.1)).map (fun q => q.1)) []
    with ⟨acts0, rl⟩
  cases rl with
  | error e => simp [Storage.scan, hrl]
  | ok u =>
    cases u
    rcases hsp : scan_path s.source_mount_point
        (s.watched_files.filter
          (fun q => pathExists s.source_mount_point t q.1))
        [] s.source_mount_point t with ⟨wf1, upd, res1⟩
    cases res1 with
    | error e => simp [Storage.scan, hrl, hsp]
    | ok szA => simp [Storage.scan, hrl, hsp]

theorem checkEntry_skip (env : CheckEnv) (e : Storage) (t : FsTree)
    (hw : e.watch = false) : checkEntry env e t = (e, true) := by
  simp [checkEntry, hw]

theorem checkEntry_ok (env : CheckEnv) (e : Storage) (t : FsTree) (sz : Nat)
    (hw : e.watch = true)
    (hres : (e.scan t env.copyFails).res = Except.ok sz) :
    checkEntry env e t = ((e.scan t env.copyFails).storage, true) := by
  simp [checkEntry, hw, hres]

theorem checkEntry_other (env : CheckEnv) (e : Storage) (t : FsTree)
    (hw : e.watch = true)
    (hres : (e.scan t env.copyFails).res = Except.error ScanError.other) :
    checkEntry env e t = ((e.scan t env.copyFails).storage, true) := by
  simp [checkEntry, hw, hres]

theorem checkEntry_watcher (env : CheckEnv) (e : Storage) (t : FsTree)
    (w : WatcherError) (hw : e.watch = true)
    (hres : (e.scan t env.copyFails).res =
      Except.error (ScanError.watcher w)) :
    checkEntry env e t =
      (if !env.targetExists e.target_mount_point &&
          !env.ensureTargetOk e.target_mount_point then
        ((e.scan t env.copyFails).storage, false)
      else if env.mountOk e.source_mount_point then
        ({ (e.scan t env.copyFails).storage with watch := false }, true)
      else
        ((e.scan t env.copyFails).storage, true)) := by
  simp [checkEntry, hw, hres]

/-! ### Concrete fixtures for witnesses and counterexamples -/

/-- A concrete source mount point. -/
def srcP : FPath := ["s"]

/-- A concrete target mount point. -/
def tgtP : FPath := ["t"]

/-- Build a flat directory of one-byte files from a list of names. -/
def filesOf : List String → FsEntries
  | [] => FsEntries.nil
  | n :: rest => FsEntries.cons n (FsTree.file 1 0) (filesOf rest)

/-- Seventeen distinct file names. -/
def names17 : List String :=
  ["a", "b", "c", "d", "e", "f", "g", "h", "i", "j", "k", "l", "m", "n",
    "o", "p", "q"]

/-- The oracle under which no `fs::copy` fails. -/
def cf0 : FPath → Bool := fun _ => false

/-- The oracle under which every `fs::copy` fails. -/
def cfAll : FPath → Bool := fun _ => true

/-- A check environment where every external operation succeeds. -/
def envA : CheckEnv :=
  { copyFails := cf0, mountOk := fun _ => true
    targetExists := fun _ => true, ensureTargetOk := fun _ => true }

/-- A check environment where `baremount` fails. -/
def envMF : CheckEnv :=
  { copyFails := cf0, mountOk := fun _ => false
    targetExists := fun _ => true, ensureTargetOk := fun _ => true }

/-- An entry already converted to a bind mount (`watch = false`). -/
def sUnwatched : Storage :=
  { source_mount_point := srcP, target_mount_point := tgtP
    watch := false, watched_files := [] }

/-- A sixteen-entry watched-files map over single-component paths. -/
def wf16 : WFiles := (names17.take 16).map (fun nm => ([nm], 0))

/-- A source tree whose second child cannot be read, after one good file. -/
def tBad : FsTree :=
  FsTree.dir (FsEntries.cons "a" (FsTree.file 5 3)
    (FsEntries.cons "b" FsTree.inaccessible FsEntries.nil))

/-! ### Claim theorems -/

/-- C1: during a scan, whenever the watched-files map exceeds
`MAX_ENTRIES_PER_STORAGE` (16) entries right after a file is recorded, the
walk fails with `MountTooManyFiles` carrying the current tracked count and
the source mount path (first and last conjuncts); a source directory with
exactly 16 files scans successfully and reports that count (second
conjunct), while one with 17 files fails with the error carrying count 17
and the source mount path (third conjunct). -/
theorem watcher_c1 :
    (∀ mnt wf upd path t wf' upd' c m,
        scan_path mnt wf upd path t =
          (wf', upd', Except.error (ScanError.watcher
            (WatcherError.mountTooManyFiles c m))) →
        MAX_ENTRIES_PER_STORAGE < c ∧ m = mnt ∧ c = wf'.length) ∧
    ((Storage.new srcP tgtP).scan
        (FsTree.dir (filesOf (names17.take 16))) cf0).res = Except.ok 16 ∧
    ((Storage.new srcP tgtP).scan (FsTree.dir (filesOf names17)) cf0).res =
      Except.error (ScanError.watcher
        (WatcherError.mountTooManyFiles 17 srcP)) ∧
    (∀ mnt wf upd path fsize fmtime,
        MAX_ENTRIES_PER_STORAGE < (insertWF wf path fmtime).length →
        ∃ u, scan_path mnt wf upd path (FsTree.file fsize fmtime) =
          (insertWF wf path fmtime, u,
            Except.error (ScanError.watcher (WatcherError.mountTooManyFiles
              (insertWF wf path fmtime).length mnt)))) := by
  refine ⟨?_, ?_, ?_, ?_⟩
  · intro mnt wf upd path t wf' upd' c m h
    exact scan_path_tooMany mnt wf upd path t wf' upd' c m h
  · simp [Storage.scan, removeLoop, filesOf, names17, scan_path, scan_entries,
      insertWF, lookupWF, Storage.new, MAX_ENTRIES_PER_STORAGE,
      MAX_SIZE_PER_WATCHABLE_MOUNT, srcP]
  · simp [Storage.scan, removeLoop, filesOf, names17, scan_path, scan_entries,
      insertWF, lookupWF, Storage.new, MAX_ENTRIES_PER_STORAGE,
      MAX_SIZE_PER_WATCHABLE_MOUNT, srcP]
  · intro mnt wf upd path fsize fmtime h
    refine ⟨(match lookupWF wf path with
      | some old_st => if old_st < fmtime then upd ++ [path] else upd
      | none => upd ++ [path]), ?_⟩
    simp only [scan_path]
    rw [if_neg (by omega)]

/-- Witness for C1: the general conjunct applied at a concrete input — a
fresh file recorded into a 16-entry map makes the walk fail with count 17,
which exceeds the limit. -/
theorem watcher_c1_witness : MAX_ENTRIES_PER_STORAGE < 17 :=
  (watcher_c1.1 srcP wf16 [] ["z"] (FsTree.file 1 5)
    (insertWF wf16 ["z"] 5) [["z"]] 17 srcP
    (by simp [scan_path, wf16, names17, insertWF, lookupWF,
      MAX_ENTRIES_PER_STORAGE])).1

/-- C2: a `MountTooLarge` failure always carries an accumulated size above
`MAX_SIZE_PER_WATCHABLE_MOUNT` (1 MiB) and the source mount path (first
conjunct); the size check fires at the end of each directory walk when the
accumulated size exceeds the limit and passes it through when at or below
the limit (second and third conjuncts), and also fires for a lone oversized
single file (fourth conjunct); a walk
that succeeds always reports an accumulated size at or below the limit
(fourth conjunct); concretely, a directory holding a file of exactly the
limit scans successfully while a single file one byte over the limit fails
with the size and source mount path (last conjuncts). -/
theorem watcher_c2 :
    (∀ mnt wf upd path t wf' upd' sz m,
        scan_path mnt wf upd path t =
          (wf', upd', Except.error (ScanError.watcher
            (WatcherError.mountTooLarge sz m))) →
        MAX_SIZE_PER_WATCHABLE_MOUNT < sz ∧ m = mnt) ∧
    (∀ mnt wf upd path cs wf1 upd1 sz,
        scan_entries mnt wf upd path cs = (wf1, upd1, Except.ok sz) →
        MAX_SIZE_PER_WATCHABLE_MOUNT < sz →
        scan_path mnt wf upd path (FsTree.dir cs) =
          (wf1, upd1, Except.error (ScanError.watcher
            (WatcherError.mountTooLarge sz mnt)))) ∧
    (∀ mnt wf upd path cs wf1 upd1 sz,
        scan_entries mnt wf upd path cs = (wf1, upd1, Except.ok sz) →
        sz ≤ MAX_SIZE_PER_WATCHABLE_MOUNT →
        scan_path mnt wf upd path (FsTree.dir cs) =
          (wf1, upd1, Except.ok sz)) ∧
    (∀ mnt upd path sz mt,
        MAX_SIZE_PER_WATCHABLE_MOUNT < sz →
        scan_path mnt [] upd path (FsTree.file sz mt) =
          ([(path, mt)], upd ++ [path], Except.error (ScanError.watcher
            (WatcherError.mountTooLarge sz mnt)))) ∧
    (∀ mnt wf upd path t wf' upd' sz,
        scan_path mnt wf upd path t = (wf', upd', Except.ok sz) →
        sz ≤ MAX_SIZE_PER_WATCHABLE_MOUNT) ∧
    ((Storage.new srcP tgtP).scan
        (FsTree.dir (FsEntries.cons "a"
          (FsTree.file MAX_SIZE_PER_WATCHABLE_MOUNT 0) FsEntries.nil))
        cf0).res = Except.ok 1 ∧
    ((Storage.new srcP tgtP).scan
        (FsTree.file (MAX_SIZE_PER_WATCHABLE_MOUNT + 1) 0) cf0).res =
      Except.error (ScanError.watcher (WatcherError.mountTooLarge
        (MAX_SIZE_PER_WATCHABLE_MOUNT + 1) srcP)) := by
  refine ⟨?_, ?_, ?_, ?_, ?_, ?_, ?_⟩
  · intro mnt wf upd path t wf' upd' sz m h
    exact scan_path_tooLarge mnt wf upd path t wf' upd' sz m h
  · intro mnt wf upd path cs wf1 upd1 sz hse hgt
    simp only [scan_path, hse]
    rw [if_neg (by omega)]
  · intro mnt wf upd path cs wf1 upd1 sz hse hle
    simp only [scan_path, hse]
    rw [if_pos hle]
  · intro mnt upd path sz mt hgt
    simp only [scan_path, lookupWF, insertWF]
    rw [if_pos (by simp [MAX_ENTRIES_PER_STORAGE]), if_neg (by omega)]
  · intro mnt wf upd path t wf' upd' sz h
    exact scan_path_ok_le mnt wf upd path t wf' upd' sz h
  · simp [Storage.scan, removeLoop, scan_path, scan_entries, insertWF,
      lookupWF, Storage.new, MAX_ENTRIES_PER_STORAGE,
      MAX_SIZE_PER_WATCHABLE_MOUNT, srcP]
  · simp [Storage.scan, removeLoop, scan_path, scan_entries, insertWF,
      lookupWF, Storage.new, MAX_ENTRIES_PER_STORAGE,
      MAX_SIZE_PER_WATCHABLE_MOUNT, srcP]

/-- Witness for C2: the lone-oversized-file conjunct applied at a concrete
input, one byte over the limit. -/
theorem watcher_c2_witness :
    scan_path srcP [] [] ["f"] (FsTree.file (MAX_SIZE_PER_WATCHABLE_MOUNT + 1) 7) =
      ([(["f"], 7)], [["f"]], Except.error (ScanError.watcher
        (WatcherError.mountTooLarge (MAX_SIZE_PER_WATCHABLE_MOUNT + 1) srcP))) := by
  have h := watcher_c2.2.2.2.1 srcP [] ["f"] (MAX_SIZE_PER_WATCHABLE_MOUNT + 1) 7
    (by decide)
  simpa using h

/-- C3: the watching flag of an entry is cleared only by `check` when a
threshold (`WatcherError`) scan failure is followed by a successful bind
mount (second conjunct); a bind-mount failure leaves the flag untouched
(third conjunct); a scan never touches the flag (fourth conjunct); and an
entry with `watch = false` is left exactly as it is, making the cleared
state terminal (first conjunct). -/
theorem watcher_c3 :
    (∀ (env : CheckEnv) (e : Storage) (t : FsTree),
      e.watch = false → checkEntry env e t = (e, true)) ∧
    (∀ (env : CheckEnv) (e : Storage) (t : FsTree),
      e.watch = true → (checkEntry env e t).1.watch = false →
      (∃ w, (e.scan t env.copyFails).res =
        Except.error (ScanError.watcher w)) ∧
      env.mountOk e.source_mount_point = true) ∧
    (∀ (env : CheckEnv) (e : Storage) (t : FsTree),
      env.mountOk e.source_mount_point = false →
      (checkEntry env e t).1.watch = e.watch) ∧
    (∀ (s : Storage) (t : FsTree) (cf : FPath → Bool),
      (s.scan t cf).storage.watch = s.watch) := by
  refine ⟨?_, ?_, ?_, ?_⟩
  · intro env e t h
    exact checkEntry_skip env e t h
  · intro env e t hw h
    have hwp := (scan_storage_fields e t env.copyFails).1
    rw [hw] at hwp
    cases hres : (e.scan t env.copyFails).res with
    | ok sz =>
      rw [checkEntry_ok env e t sz hw hres] at h
      simp [hwp] at h
    | error err =>
      cases err with
      | watcher w =>
        rw [checkEntry_watcher env e t w hw hres] at h
        split at h
        · simp [hwp] at h
        · split at h
          · rename_i hmo
            exact ⟨⟨w, rfl⟩, hmo⟩
          · simp [hwp] at h
      | other =>
        rw [checkEntry_other env e t hw hres] at h
        simp [hwp] at h
  · intro env e t hmo
    cases hw : e.watch with
    | false =>
      rw [checkEntry_skip env e t hw]
      exact hw
    | true =>
      have hwp := (scan_storage_fields e t env.copyFails).1
      rw [hw] at hwp
      cases hres : (e.scan t env.copyFails).res with
      | ok sz =>
        rw [checkEntry_ok env e t sz hw hres]
        exact hwp
      | error err =>
        cases err with
        | watcher w =>
          rw [checkEntry_watcher env e t w hw hres]
          split
          · exact hwp
          · rw [if_neg (by simp [hmo])]
            exact hwp
        | other =>
          rw [checkEntry_other env e t hw hres]
          exact hwp
  · intro s t cf
    exact (scan_storage_fields s t cf).1

/-- Witness for C3: the terminal conjunct applied to a concrete entry whose
flag is already cleared — `check` leaves it exactly as it is. -/
theorem watcher_c3_witness :
    checkEntry envA sUnwatched (FsTree.dir FsEntries.nil) = (sUnwatched, true) :=
  watcher_c3.1 envA sUnwatched (FsTree.dir FsEntries.nil) rfl

/-- A one-file source directory. -/
def tA : FsTree := FsTree.dir (FsEntries.cons "a" (FsTree.file 3 5) FsEntries.nil)

/-- The entry state after the first scan of `tA` from a fresh entry. -/
def s1c : Storage :=
  { source_mount_point := srcP, target_mount_point := tgtP
    watch := true, watched_files := [(["s", "a"], 5)] }

/-- C4 counterexample: a non-threshold scan failure (an unreadable child
after one good file) leaves the entry watching and lets `check` continue,
but the entry's state is NOT unchanged — the file recorded before the
failure persists in `watched_files`, so the claim's "leaves that entry's
state unchanged" is false at this input. -/
theorem watcher_c4_counterexample :
    (checkEntry envA (Storage.new srcP tgtP) tBad).2 = true ∧
    (checkEntry envA (Storage.new srcP tgtP) tBad).1.watch = true ∧
    ((Storage.new srcP tgtP).scan tBad envA.copyFails).res =
      Except.error ScanError.other ∧
    (checkEntry envA (Storage.new srcP tgtP) tBad).1 ≠
      Storage.new srcP tgtP := by
  refine ⟨?_, ?_, ?_, ?_⟩ <;>
    simp [checkEntry, envA, Storage.scan, removeLoop, tBad, scan_path,
      scan_entries, insertWF, lookupWF, Storage.new, cf0,
      MAX_ENTRIES_PER_STORAGE, MAX_SIZE_PER_WATCHABLE_MOUNT, srcP, tgtP]

/-- C4 (amended): `check` invokes `scan` on every entry whose watching flag
is true and leaves entries with `watch = false` exactly as they are (first
conjunct); a scan failure that is not TooManyFiles/TooLarge is only logged:
the entry keeps watching, though the watched-files updates made before the
failure persist (second conjunct); and such an entry does not prevent the
remaining entries from being checked (third conjunct). -/
theorem watcher_c4 :
    (∀ (env : CheckEnv) (e : Storage) (t : FsTree),
      e.watch = false → checkEntry env e t = (e, true)) ∧
    (∀ (env : CheckEnv) (e : Storage) (t : FsTree),
      e.watch = true →
      (e.scan t env.copyFails).res = Except.error ScanError.other →
      checkEntry env e t = ((e.scan t env.copyFails).storage, true) ∧
        (e.scan t env.copyFails).storage.watch = true) ∧
    (∀ (env : CheckEnv) (e : Storage) (t : FsTree)
        (rest : List (Storage × FsTree)),
      (checkEntry env e t).2 = true →
      check env ((e, t) :: rest) =
        ((checkEntry env e t).1 :: (check env rest).1,
          (check env rest).2)) := by
  refine ⟨?_, ?_, ?_⟩
  · intro env e t h
    exact checkEntry_skip env e t h
  · intro env e t hw hres
    refine ⟨checkEntry_other env e t hw hres, ?_⟩
    rw [(scan_storage_fields e t env.copyFails).1]
    exact hw
  · intro env e t rest h
    rcases hce : checkEntry env e t with ⟨e1, b⟩
    rw [hce] at h
    simp only at h
    subst h
    rcases hcr : check env rest with ⟨out, ok2⟩
    simp [check, hce, hcr]

/-- Witness for C4: the continuation conjunct applied to a concrete
bind-mounted entry — `check` of the one-entry list reduces to the head
result followed by the check of the (empty) tail. -/
theorem watcher_c4_witness :
    check envA [(sUnwatched, FsTree.dir FsEntries.nil)] =
      ((checkEntry envA sUnwatched (FsTree.dir FsEntries.nil)).1 ::
          (check envA ([] : List (Storage × FsTree))).1,
        (check envA ([] : List (Storage × FsTree))).2) :=
  watcher_c4.2.2 envA sUnwatched (FsTree.dir FsEntries.nil) []
    (by simp [checkEntry, sUnwatched])

/-- C5: if a scan of an entry over a source tree succeeds and the tree is
unchanged (same tree, sibling names distinct as on a real filesystem), the
next scan of the resulting entry returns 0, performs no filesystem writes,
and leaves the entry's state intact — whatever the copy-failure behaviour
of either cycle. -/
theorem watcher_c5 :
    ∀ (s s1 : Storage) (t : FsTree) (cf cf' : FPath → Bool)
      (acts : List FsAct) (n : Nat),
      dupFree t = true →
      s.scan t cf = ⟨s1, acts, Except.ok n⟩ →
      s1.scan t cf' = ⟨s1, [], Except.ok 0⟩ :=
  fun s s1 t cf cf' acts n hdf h => scan_rescan s s1 t cf cf' acts n hdf h

/-- Witness for C5: after a fresh entry scans a one-file directory (copying
that file), rescanning the unchanged directory returns 0 with no writes. -/
theorem watcher_c5_witness :
    s1c.scan tA cf0 = ⟨s1c, [], Except.ok 0⟩ :=
  watcher_c5 (Storage.new srcP tgtP) s1c tA cf0 cf0
    [FsAct.create_dir_all ["t"], FsAct.copy ["s", "a"] ["t", "a"]] 1
    (by decide)
    (by simp [Storage.scan, removeLoop, tA, scan_path, scan_entries,
      insertWF, lookupWF, Storage.new, s1c, updLoop, Storage.update_target,
      Storage.make_target_path, underPath, cf0, MAX_ENTRIES_PER_STORAGE,
      MAX_SIZE_PER_WATCHABLE_MOUNT, srcP, tgtP])

/-- C6: per-file copy failures are never escalated — the result and the
entry post-state of a scan do not depend on which copies fail (first
conjunct); concretely, when the only identified file's copy fails, the scan
still returns `Ok 1` (the count of identified files) and only the directory
creation reached the filesystem, no copy (last conjuncts). -/
theorem watcher_c6 :
    (∀ (s : Storage) (t : FsTree) (cf cf' : FPath → Bool),
      (s.scan t cf).res = (s.scan t cf').res ∧
        (s.scan t cf).storage = (s.scan t cf').storage) ∧
    ((Storage.new srcP tgtP).scan tA cfAll).res = Except.ok 1 ∧
    ((Storage.new srcP tgtP).scan tA cfAll).acts =
      [FsAct.create_dir_all ["t"]] := by
  refine ⟨fun s t cf cf' => scan_copyFails_indep s t cf cf', ?_, ?_⟩ <;>
    simp [Storage.scan, removeLoop, tA, scan_path, scan_entries, insertWF,
      lookupWF, Storage.new, updLoop, Storage.update_target,
      Storage.make_target_path, underPath, cfAll, MAX_ENTRIES_PER_STORAGE,
      MAX_SIZE_PER_WATCHABLE_MOUNT, srcP, tgtP]

/-- A single-file watched unit whose target path has a nested, absent
parent directory. -/
def s7 : Storage :=
  { source_mount_point := ["s", "f"], target_mount_point := ["t", "sub", "out"]
    watch := true, watched_files := [] }

/-- C7 counterexample: when the watched unit is a single file, the copy
step performs no parent-directory creation at all — against an empty target
filesystem whose parent directory is absent, the copy cannot land and the
parent still does not exist afterwards, so the claim's "ensures the target
file's parent directory exists ... both when the watched unit is a
directory and when it is a single file" is false at this input. -/
theorem watcher_c7_counterexample :
    s7.update_target (FsTree.file 10 2) cf0 ["s", "f"] =
      ([FsAct.copy ["s", "f"] ["t", "sub", "out"]], Except.ok ()) ∧
    memFs (applyActs []
        (s7.update_target (FsTree.file 10 2) cf0 ["s", "f"]).1)
      ["t", "sub", "out"] = false ∧
    parentOk (applyActs []
        (s7.update_target (FsTree.file 10 2) cf0 ["s", "f"]).1)
      ["t", "sub", "out"] = false := by
  refine ⟨?_, ?_, ?_⟩ <;>
    simp [Storage.update_target, s7, cf0, applyActs, applyAct, parentOk,
      memFs]

/-- C7 (amended): when the watched unit is a directory, the copy step
creates the destination's parent directory (recursively) before copying, so
after the actions run the parent exists and the destination file is present
in any target filesystem (second conjunct); when the watched unit is a
single file, the mapping is file-to-file onto the target mount point
directly and no directory creation is performed (first conjunct). -/
theorem watcher_c7 :
    (∀ (s : Storage) (sz mt : Nat) (cf : FPath → Bool) (p : FPath),
      s.update_target (FsTree.file sz mt) cf p =
        (if cf p then ([], Except.error ())
         else ([FsAct.copy p s.target_mount_point], Except.ok ()))) ∧
    (∀ (s : Storage) (cs : FsEntries) (cf : FPath → Bool) (p suffix : FPath),
      p = s.source_mount_point ++ suffix →
      s.target_mount_point ++ suffix ≠ [] →
      cf p = false →
      s.update_target (FsTree.dir cs) cf p =
        ([FsAct.create_dir_all (s.target_mount_point ++ suffix).dropLast,
          FsAct.copy p (s.target_mount_point ++ suffix)], Except.ok ()) ∧
      ∀ g, parentOk (applyActs g
            (s.update_target (FsTree.dir cs) cf p).1)
          (s.target_mount_point ++ suffix) = true ∧
        memFs (applyActs g
            (s.update_target (FsTree.dir cs) cf p).1)
          (s.target_mount_point ++ suffix) = true) := by
  constructor
  · intro s sz mt cf p
    by_cases hcf : cf p <;> simp [Storage.update_target, hcf]
  · intro s cs cf p suffix hp hne hcf
    subst hp
    have hmk : s.make_target_path (s.source_mount_point ++ suffix) =
        Except.ok (s.target_mount_point ++ suffix) := by
      simp [Storage.make_target_path, underPath_append_self, List.drop_left]
    have hacts : s.update_target (FsTree.dir cs) cf
        (s.source_mount_point ++ suffix) =
        ([FsAct.create_dir_all (s.target_mount_point ++ suffix).dropLast,
          FsAct.copy (s.source_mount_point ++ suffix)
            (s.target_mount_point ++ suffix)], Except.ok ()) := by
      simp [Storage.update_target, hmk, hne, hcf]
    refine ⟨hacts, ?_⟩
    intro g
    rw [hacts]
    have hparent1 : parentOk
        (g ++ ancestorsOf (s.target_mount_point ++ suffix).dropLast)
        (s.target_mount_point ++ suffix) = true := by
      by_cases hd : (s.target_mount_point ++ suffix).dropLast = []
      · simp [parentOk, hd]
      · simp [parentOk, hd, memFs_append, memFs_ancestorsOf_self]
    constructor
    · simp only [applyActs, List.foldl, applyAct]
      rw [if_pos hparent1]
      by_cases hd : (s.target_mount_point ++ suffix).dropLast = []
      · simp [parentOk, hd]
      · simp [parentOk, hd, memFs_append, memFs_ancestorsOf_self]
    · simp only [applyActs, List.foldl, applyAct]
      rw [if_pos hparent1]
      simp [memFs_append, memFs]

/-- Witness for C7: the directory-unit conjunct applied at a concrete
entry — the actions are the parent `create_dir_all` followed by the copy,
and against the empty target filesystem the parent exists and the file is
present after they run. -/
theorem watcher_c7_witness :
    (Storage.new srcP tgtP).update_target (FsTree.dir FsEntries.nil) cf0
        ["s", "x"] =
      ([FsAct.create_dir_all ["t"], FsAct.copy ["s", "x"] ["t", "x"]],
        Except.ok ()) ∧
    parentOk (applyActs []
        ((Storage.new srcP tgtP).update_target (FsTree.dir FsEntries.nil)
          cf0 ["s", "x"]).1) ["t", "x"] = true ∧
    memFs (applyActs []
        ((Storage.new srcP tgtP).update_target (FsTree.dir FsEntries.nil)
          cf0 ["s", "x"]).1) ["t", "x"] = true := by
  have h := watcher_c7.2 (Storage.new srcP tgtP) FsEntries.nil cf0
    ["s", "x"] ["x"] rfl (by decide) rfl
  exact ⟨h.1, (h.2 []).1, (h.2 []).2⟩

/-- C8: for any path of the form `source_mount_point ++ suffix`, the
target-path mapping returns `target_mount_point ++ suffix`; for any path
not under the source mount point it returns an error instead of a wrong
path. -/
theorem watcher_c8 :
    ∀ (s : Storage) (p : FPath),
      (∀ suffix, p = s.source_mount_point ++ suffix →
        s.make_target_path p =
          Except.ok (s.target_mount_point ++ suffix)) ∧
      ((∀ suffix, p ≠ s.source_mount_point ++ suffix) →
        s.make_target_path p = Except.error ()) := by
  intro s p
  constructor
  · rintro suffix rfl
    simp [Storage.make_target_path, underPath_append_self, List.drop_left]
  · intro h
    have hb : underPath s.source_mount_point p = false := by
      cases hb : underPath s.source_mount_point p
      · rfl
      · obtain ⟨s0, rfl⟩ := underPath_exists hb
        exact absurd rfl (h s0)
    simp [Storage.make_target_path, hb]

/-- Witness for C8: the mapping applied at a concrete path under the
source mount point. -/
theorem watcher_c8_witness :
    (Storage.new srcP tgtP).make_target_path ["s", "x"] =
      Except.ok ["t", "x"] :=
  (watcher_c8 (Storage.new srcP tgtP) ["s", "x"]).1 ["x"] rfl

/-- C9 counterexample: scanning a fresh watching entry over a directory of
17 files fails, yet — because the count check runs after the insertion —
the entry is left with 17 tracked files while still watching (here the
bind-mount fallback also failed, so `check` leaves it watching too),
refuting the claim that `|known_files| ≤ 16` holds whenever
`watching = true`, even after a failed scan. -/
theorem watcher_c9_counterexample :
    (checkEntry envMF (Storage.new srcP tgtP)
        (FsTree.dir (filesOf names17))).1.watch = true ∧
    ((checkEntry envMF (Storage.new srcP tgtP)
        (FsTree.dir (filesOf names17))).1.watched_files.length = 17 ∧
      MAX_ENTRIES_PER_STORAGE < 17) := by
  refine ⟨?_, ?_, by decide⟩ <;>
    simp [checkEntry, envMF, Storage.scan, removeLoop, filesOf, names17,
      scan_path, scan_entries, insertWF, lookupWF, Storage.new, cf0,
      MAX_ENTRIES_PER_STORAGE, MAX_SIZE_PER_WATCHABLE_MOUNT, srcP, tgtP]

/-- C9 (amended): after every SUCCESSFUL scan of an entry whose map held at
most 16 entries, the map still holds at most 16 entries and the source
tree's total byte size is at most 1 MiB; a failed scan, however, may leave
the map one entry over the limit because the count check runs after the
insertion. -/
theorem watcher_c9 :
    ∀ (s : Storage) (t : FsTree) (cf : FPath → Bool) (n : Nat),
      s.watched_files.length ≤ MAX_ENTRIES_PER_STORAGE →
      (s.scan t cf).res = Except.ok n →
      (s.scan t cf).storage.watched_files.length ≤
          MAX_ENTRIES_PER_STORAGE ∧
        treeSize t ≤ MAX_SIZE_PER_WATCHABLE_MOUNT := by
  intro s t cf n hlen hres
  rcases hrl : removeLoop s ((s.watched_files.filter
      (fun q => !pathExists s.source_mount_point t q.1)).map (fun q => q.1)) []
    with ⟨acts0, rl⟩
  cases rl with
  | error e => simp [Storage.scan, hrl] at hres
  | ok u =>
    cases u
    rcases hsp : scan_path s.source_mount_point
        (s.watched_files.filter
          (fun q => pathExists s.source_mount_point t q.1))
        [] s.source_mount_point t with ⟨wf1, upd, res1⟩
    cases res1 with
    | error e => simp [Storage.scan, hrl, hsp] at hres
    | ok szA =>
      constructor
      · simp only [Storage.scan, hrl, hsp]
        by_cases hc : 0 < fileCnt t
        · exact scan_path_ok_len s.source_mount_point _ []
            s.source_mount_point t wf1 upd szA hsp hc
        · have hz : fileCnt t = 0 := by omega
          have hid := scan_path_nofiles s.source_mount_point
            (s.watched_files.filter
              (fun q => pathExists s.source_mount_point t q.1))
            [] s.source_mount_point t hz
          rw [hsp] at hid
          simp only at hid
          rw [hid.1]
          exact le_trans (List.length_filter_le _ _) hlen
      · have heq := scan_path_ok_size s.source_mount_point _ []
          s.source_mount_point t wf1 upd szA hsp
        have hle := scan_path_ok_le s.source_mount_point _ []
          s.source_mount_point t wf1 upd szA hsp
        rw [← heq]
        exact hle

/-- Witness for C9: the amended bound applied to a fresh entry scanning a
one-file directory — the map ends with one entry, within the limit. -/
theorem watcher_c9_witness :
    ((Storage.new srcP tgtP).scan tA cf0).storage.watched_files.length ≤
        MAX_ENTRIES_PER_STORAGE ∧
      treeSize tA ≤ MAX_SIZE_PER_WATCHABLE_MOUNT :=
  watcher_c9 (Storage.new srcP tgtP) tA cf0 1 (by decide)
    (by simp [Storage.scan, removeLoop, tA, scan_path, scan_entries,
      insertWF, lookupWF, Storage.new, cf0, MAX_ENTRIES_PER_STORAGE,
      MAX_SIZE_PER_WATCHABLE_MOUNT, srcP, tgtP])

/-- C10: disposing an entry whose watching flag is cleared first unmounts
the target mount point and then recursively removes it; one still watching
is only removed recursively (first two conjuncts) — and neither step's
failure changes what is attempted (third conjunct); removing a container
cascades the disposal to every entry the container owns (fourth conjunct)
and drops the container from the registry (last conjunct). -/
theorem watcher_c10 :
    (∀ (uf rf : Bool) (s : Storage), s.watch = false →
      Storage.dropActs uf rf s =
        [DisposeAct.unmountTarget s.target_mount_point,
          DisposeAct.removeDirAllTarget s.target_mount_point]) ∧
    (∀ (uf rf : Bool) (s : Storage), s.watch = true →
      Storage.dropActs uf rf s =
        [DisposeAct.removeDirAllTarget s.target_mount_point]) ∧
    (∀ (uf rf uf2 rf2 : Bool) (s : Storage),
      Storage.dropActs uf rf s = Storage.dropActs uf2 rf2 s) ∧
    (∀ (uf rf : Bool) (reg : List (String × List Storage)) (id : String)
        (q : String × List Storage), q ∈ reg → q.1 = id →
      ∀ e ∈ q.2,
        DisposeAct.removeDirAllTarget e.target_mount_point ∈
          (remove_container uf rf reg id).2 ∧
        (e.watch = false →
          DisposeAct.unmountTarget e.target_mount_point ∈
            (remove_container uf rf reg id).2)) ∧
    (∀ (uf rf : Bool) (reg : List (String × List Storage)) (id : String)
        (q : String × List Storage),
      q ∈ (remove_container uf rf reg id).1 → q.1 ≠ id) := by
  refine ⟨?_, ?_, ?_, ?_, ?_⟩
  · intro uf rf s h
    simp [Storage.dropActs, h]
  · intro uf rf s h
    simp [Storage.dropActs, h]
  · intro uf rf uf2 rf2 s
    simp [Storage.dropActs]
  · intro uf rf reg id q hq hid e he
    have hmem : SandboxStorages.dropActs uf rf q.2 ∈
        (reg.filter (fun r => r.1 = id)).map
          (fun r => SandboxStorages.dropActs uf rf r.2) :=
      List.mem_map_of_mem _ (List.mem_filter.mpr ⟨hq, by simp [hid]⟩)
    have hin : ∀ a ∈ Storage.dropActs uf rf e,
        a ∈ (remove_container uf rf reg id).2 := by
      intro a ha
      simp only [remove_container]
      exact List.mem_flatten.mpr ⟨_, hmem,
        List.mem_flatten.mpr ⟨_, List.mem_map_of_mem _ he, ha⟩⟩
    constructor
    · exact hin _ (by cases hw : e.watch <;> simp [Storage.dropActs, hw])
    · intro hw
      exact hin _ (by simp [Storage.dropActs, hw])
  · intro uf rf reg id q hq
    have := List.mem_filter.mp hq
    simpa using this.2

/-- Witness for C10: disposal of a concrete bind-mounted entry inside a
one-container registry — its unmount is among the disposal actions of
removing that container. -/
theorem watcher_c10_witness :
    DisposeAct.unmountTarget tgtP ∈
      (remove_container false false [("c", [sUnwatched])] "c").2 :=
  ((watcher_c10.2.2.2.1 false false [("c", [sUnwatched])] "c"
    ("c", [sUnwatched]) (by simp) rfl sUnwatched (by simp)).2 rfl)

end Watcher
